import Mathlib

/-!
Shallow embedding of `bio2zarr/core.py`: the minimum-width integer dtype
selector, the chunk-aligned slice partitioner, the buffered array writer,
the shared progress counter, and the work-manager future handling.
Machine integers are modelled as `Nat`/`Int`; Python exceptions as
`Option`/`Except` failure values.
-/

namespace Bio2zarr

/-! ## min_int_dtype (core.py lines 21-28) -/

/-- Errors raised by `min_int_dtype`: `ValueError` for an inverted range,
`OverflowError` when no fixed-width signed type fits. -/
inductive DtypeError where
  | invalidRange
  | overflow
  deriving DecidableEq, Repr

/-- Embedding of `min_int_dtype(min_value, max_value)`.  The Python loops over
`["i1", "i2", "i4", "i8"]` testing `np.iinfo(a_dtype).min <= min_value and
max_value <= np.iinfo(a_dtype).max`; the loop is unrolled here with the exact
two's-complement bounds of each width. -/
def min_int_dtype (minValue maxValue : Int) : Except DtypeError String :=
  if minValue > maxValue then .error .invalidRange
  else if -(2 ^ 7) ≤ minValue ∧ maxValue ≤ 2 ^ 7 - 1 then .ok "i1"
  else if -(2 ^ 15) ≤ minValue ∧ maxValue ≤ 2 ^ 15 - 1 then .ok "i2"
  else if -(2 ^ 31) ≤ minValue ∧ maxValue ≤ 2 ^ 31 - 1 then .ok "i4"
  else if -(2 ^ 63) ≤ minValue ∧ maxValue ≤ 2 ^ 63 - 1 then .ok "i8"
  else .error .overflow

/-! ## chunk_aligned_slices (core.py lines 31-47)

`np.array_split(np.arange(L), k)` splits the `L` chunk indices into `k`
contiguous groups: with `q = L / k` and `r = L % k`, the first `r` groups have
`q + 1` elements and the rest have `q`.  The boundary of group `i` is
`i * q + min i r`; group `i` holds indices `[bound i, bound (i+1))`.
`np.array_split` raises `ValueError` when the section count `k` is `0`, which
the embedding renders as `none`. -/

/-- Start index of the `i`-th of `k` groups in `np.array_split(np.arange(L), k)`. -/
def splitBound (L k i : Nat) : Nat :=
  i * (L / k) + min i (L % k)

/-- Number of chunks covering `shape0` rows at chunk size `cs`, optionally
clipped to `maxChunks`: `int(np.ceil(shape0 / cs))` then `min` with the cap. -/
def numChunksOf (shape0 cs : Nat) (maxChunks : Option Nat) : Nat :=
  let n0 := (shape0 + cs - 1) / cs
  match maxChunks with
  | none => n0
  | some m => min n0 m

/-- Embedding of `chunk_aligned_slices(z, n, max_chunks)`.  The zarr array `z`
contributes only `z.shape[0]` (`shape0`) and `z.chunks[0]` (`cs`).  Returns
`none` when `min n numChunks = 0`, where the Python `np.array_split` call
raises `ValueError` (zero sections). -/
def chunk_aligned_slices (shape0 cs n : Nat) (maxChunks : Option Nat) :
    Option (List (Nat × Nat)) :=
  let numChunks := numChunksOf shape0 cs maxChunks
  let k := min n numChunks
  if k = 0 then none
  else
    some ((List.range k).map (fun i =>
      (splitBound numChunks k i * cs,
       min (splitBound numChunks k (i + 1) * cs) shape0)))

/-! ### Arithmetic facts about `splitBound` -/

theorem splitBound_zero (L k : Nat) : splitBound L k 0 = 0 := by
  simp [splitBound]

theorem splitBound_self (L k : Nat) (hk : 0 < k) : splitBound L k k = L := by
  unfold splitBound
  rw [Nat.min_eq_right (Nat.le_of_lt (Nat.mod_lt L hk))]
  exact Nat.div_add_mod L k

theorem splitBound_succ (L k i : Nat) :
    splitBound L k (i + 1) =
      splitBound L k i + L / k + (if i < L % k then 1 else 0) := by
  unfold splitBound
  rcases Nat.lt_or_ge i (L % k) with h | h
  · rw [if_pos h, Nat.succ_mul]
    omega
  · rw [if_neg (by omega), Nat.succ_mul]
    omega

theorem splitBound_mono (L k : Nat) {i j : Nat} (hij : i ≤ j) :
    splitBound L k i ≤ splitBound L k j := by
  unfold splitBound
  have h1 : i * (L / k) ≤ j * (L / k) := Nat.mul_le_mul_right _ hij
  omega

theorem splitBound_strict (L k i : Nat) (hk : 0 < k) (hkL : k ≤ L) :
    splitBound L k i < splitBound L k (i + 1) := by
  have hq : 1 ≤ L / k := (Nat.one_le_div_iff hk).mpr hkL
  have h := splitBound_succ L k i
  omega

theorem splitBound_lt_of_lt (L k : Nat) {i j : Nat} (hk : 0 < k) (hkL : k ≤ L)
    (hij : i < j) : splitBound L k i < splitBound L k j :=
  Nat.lt_of_lt_of_le (splitBound_strict L k i hk hkL) (splitBound_mono L k hij)

/-- Locator lemma: for a strictly increasing boundary function, any `x` below
the last boundary falls in exactly one of the `k` intervals. -/
theorem exists_interval_index (f : Nat → Nat) (k x : Nat)
    (hmono : ∀ i, i < k → f i < f (i + 1))
    (h0 : f 0 ≤ x) (hk : x < f k) :
    ∃ i, i < k ∧ f i ≤ x ∧ x < f (i + 1) := by
  induction k with
  | zero => omega
  | succ m ih =>
    rcases Nat.lt_or_ge x (f m) with h | h
    · obtain ⟨i, hi, h1, h2⟩ := ih (fun i hi => hmono i (Nat.lt_succ_of_lt hi)) h
      exact ⟨i, Nat.lt_succ_of_lt hi, h1, h2⟩
    · exact ⟨m, Nat.lt_succ_self m, h, hk⟩

theorem numChunksOf_pos (shape0 cs : Nat) (mc : Option Nat)
    (hs : 0 < shape0) (hc : 0 < cs) (hmc : ∀ m, mc = some m → 0 < m) :
    0 < numChunksOf shape0 cs mc := by
  have h1 : 1 ≤ (shape0 + cs - 1) / cs := (Nat.one_le_div_iff hc).mpr (by omega)
  unfold numChunksOf
  cases mc with
  | none => simpa using h1
  | some m =>
    have hm := hmc m rfl
    simp only
    omega

theorem numChunksOf_sub_one_mul_lt (shape0 cs : Nat) (mc : Option Nat)
    (hs : 0 < shape0) (hc : 0 < cs) :
    (numChunksOf shape0 cs mc - 1) * cs < shape0 := by
  have hle : numChunksOf shape0 cs mc ≤ (shape0 + cs - 1) / cs := by
    unfold numChunksOf
    cases mc <;> simp only <;> omega
  have h1 : (shape0 + cs - 1) / cs * cs ≤ shape0 + cs - 1 := Nat.div_mul_le_self _ _
  have h2 : (numChunksOf shape0 cs mc - 1) * cs ≤ ((shape0 + cs - 1) / cs - 1) * cs :=
    Nat.mul_le_mul_right _ (by omega)
  have h3 : ((shape0 + cs - 1) / cs - 1) * cs = (shape0 + cs - 1) / cs * cs - 1 * cs :=
    Nat.sub_mul _ _ _
  omega

/-! ## Claim theorems: Slice Aligner -/

/-- C1 (amended): for `shape0 > 0`, `chunkSize > 0`, `n > 0` and any optional
`maxChunks` that is positive when provided, `chunk_aligned_slices` returns a
sorted sequence of pairwise-disjoint nonempty `(start, stop)` pairs, each
`start` a multiple of the chunk size, with count exactly `min n numChunks`
(`numChunks = ceil(shape0/chunkSize)` clipped to `maxChunks`), whose union is
exactly `[0, numChunks * chunkSize)` clipped to `shape0`; and the scenario
`shape0 = 10`, chunk size `4`, `n = 2` yields exactly `(0, 8)` and `(8, 10)`.
(The original claim over every optional `maxChunks` fails at `maxChunks = 0`,
where the underlying zero-section `np.array_split` raises `ValueError`.) -/
theorem C1_slice_aligner_correct (shape0 cs n : Nat) (mc : Option Nat)
    (hs : 0 < shape0) (hc : 0 < cs) (hn : 0 < n)
    (hmc : ∀ m, mc = some m → 0 < m) :
    (∃ slices, chunk_aligned_slices shape0 cs n mc = some slices ∧
      slices.length = min n (numChunksOf shape0 cs mc) ∧
      slices.Pairwise (fun a b => a.2 ≤ b.1) ∧
      (∀ p ∈ slices, p.1 < p.2) ∧
      (∀ p ∈ slices, cs ∣ p.1) ∧
      (∀ x, (∃ p ∈ slices, p.1 ≤ x ∧ x < p.2) ↔
        x < min (numChunksOf shape0 cs mc * cs) shape0)) ∧
    chunk_aligned_slices 10 4 2 none = some [(0, 8), (8, 10)] := by
  refine ⟨?_, by decide⟩
  set L := numChunksOf shape0 cs mc with hLdef
  set k := min n L with hkdef
  have hL : 0 < L := numChunksOf_pos shape0 cs mc hs hc hmc
  have hk0 : 0 < k := by omega
  have hkL : k ≤ L := Nat.min_le_right n L
  have hstep : ∀ i, splitBound L k i < splitBound L k (i + 1) :=
    fun i => splitBound_strict L k i hk0 hkL
  have hbound_le : ∀ i, i ≤ k → splitBound L k i ≤ L := fun i hi => by
    have := splitBound_mono L k hi
    rwa [splitBound_self L k hk0] at this
  have hstart_lt_shape : ∀ i, i < k → splitBound L k i * cs < shape0 := by
    intro i hi
    have h1 : splitBound L k i < L := by
      have h2 := splitBound_lt_of_lt L k hk0 hkL hi
      rwa [splitBound_self L k hk0] at h2
    have h2 : splitBound L k i * cs ≤ (L - 1) * cs :=
      Nat.mul_le_mul_right _ (by omega)
    have h3 := numChunksOf_sub_one_mul_lt shape0 cs mc hs hc
    rw [← hLdef] at h3
    omega
  refine ⟨(List.range k).map (fun i =>
      (splitBound L k i * cs, min (splitBound L k (i + 1) * cs) shape0)),
    ?_, ?_, ?_, ?_, ?_, ?_⟩
  · simp only [chunk_aligned_slices, ← hLdef, ← hkdef]
    rw [if_neg (by omega)]
  · simp [hkdef]
  · refine List.Pairwise.map _ ?_ (List.pairwise_lt_range k)
    intro i j hij
    have h1 : splitBound L k (i + 1) * cs ≤ splitBound L k j * cs :=
      Nat.mul_le_mul_right _ (splitBound_mono L k hij)
    simp only
    omega
  · intro p hp
    obtain ⟨i, hi, rfl⟩ := List.mem_map.mp hp
    have hik := List.mem_range.mp hi
    have h1 : splitBound L k i * cs < splitBound L k (i + 1) * cs :=
      Nat.mul_lt_mul_of_lt_of_le (hstep i) (Nat.le_refl cs) hc
    have h2 := hstart_lt_shape i hik
    simp only
    omega
  · intro p hp
    obtain ⟨i, hi, rfl⟩ := List.mem_map.mp hp
    exact dvd_mul_left cs _
  · intro x
    constructor
    · rintro ⟨p, hp, hx1, hx2⟩
      obtain ⟨i, hi, rfl⟩ := List.mem_map.mp hp
      have hik := List.mem_range.mp hi
      have h1 : splitBound L k (i + 1) * cs ≤ L * cs :=
        Nat.mul_le_mul_right _ (hbound_le (i + 1) hik)
      simp only at hx1 hx2
      omega
    · intro hx
      have hx1 : x < L * cs := by omega
      have hx2 : x < shape0 := by omega
      obtain ⟨i, hik, h1, h2⟩ :=
        exists_interval_index (fun i => splitBound L k i * cs) k x
          (fun i _ => Nat.mul_lt_mul_of_lt_of_le (hstep i) (Nat.le_refl cs) hc)
          (by simp [splitBound_zero])
          (by simpa [splitBound_self L k hk0] using hx1)
      refine ⟨_, List.mem_map.mpr ⟨i, List.mem_range.mpr hik, rfl⟩, h1, ?_⟩
      simp only
      omega

/-- Witness for C1 at `shape0 = 10`, chunk size `4`, `n = 2`, no `maxChunks`. -/
theorem C1_slice_aligner_correct_witness :
    (∃ slices, chunk_aligned_slices 10 4 2 none = some slices ∧
      slices.length = min 2 (numChunksOf 10 4 none) ∧
      slices.Pairwise (fun a b => a.2 ≤ b.1) ∧
      (∀ p ∈ slices, p.1 < p.2) ∧
      (∀ p ∈ slices, 4 ∣ p.1) ∧
      (∀ x, (∃ p ∈ slices, p.1 ≤ x ∧ x < p.2) ↔
        x < min (numChunksOf 10 4 none * 4) 10)) ∧
    chunk_aligned_slices 10 4 2 none = some [(0, 8), (8, 10)] :=
  C1_slice_aligner_correct 10 4 2 none (by decide) (by decide) (by decide)
    (fun m h => by cases h)

/-- C1 counterexample: with `maxChunks = 0` the claim demands a returned
(empty) sequence, but the code raises `ValueError` inside `np.array_split`
(zero sections), modelled as `none`. -/
theorem C1_slice_aligner_counterexample :
    chunk_aligned_slices 10 4 2 (some 0) = none := by decide

/-- C5 (amended): with `shape0 = 0` (and `chunkSize > 0`, `n > 0`, any
`maxChunks`), `chunk_aligned_slices` does not return an empty sequence: it
raises `ValueError` (zero sections passed to `np.array_split`), modelled as
`none`. -/
theorem C5_empty_shape_raises (cs n : Nat) (mc : Option Nat)
    (hc : 0 < cs) (hn : 0 < n) :
    chunk_aligned_slices 0 cs n mc = none := by
  have h0 : numChunksOf 0 cs mc = 0 := by
    have h1 : (cs - 1) / cs = 0 := Nat.div_eq_of_lt (by omega)
    unfold numChunksOf
    cases mc <;> simp [h1]
  simp [chunk_aligned_slices, h0]

/-- Witness for C5 at `chunkSize = 7`, `n = 3`. -/
theorem C5_empty_shape_raises_witness :
    chunk_aligned_slices 0 7 3 none = none :=
  C5_empty_shape_raises 7 3 none (by decide) (by decide)

/-- C5 counterexample: at `shape0 = 0`, `chunkSize = 4`, `n = 2` the call does
not return the empty slice list the claim promises; it fails. -/
theorem C5_counterexample :
    chunk_aligned_slices 0 4 2 none ≠ some [] := by decide

/-! ## Claim theorems: min_int_dtype -/

/-- C9: `min_int_dtype (0, 200)` returns `"i2"`; inverted bounds `(5, 3)`
raise `ValueError`; and any valid bounds not representable in a signed
8-byte integer raise `OverflowError` before any work starts. -/
theorem C9_min_int_dtype_spec :
    min_int_dtype 0 200 = .ok "i2" ∧
    min_int_dtype 5 3 = .error .invalidRange ∧
    ∀ mn mx : Int, mn ≤ mx → (mn < -(2 ^ 63) ∨ 2 ^ 63 - 1 < mx) →
      min_int_dtype mn mx = .error .overflow := by
  refine ⟨rfl, rfl, ?_⟩
  intro mn mx hle hbig
  unfold min_int_dtype
  rw [if_neg (by omega), if_neg (by omega), if_neg (by omega),
    if_neg (by omega), if_neg (by omega)]

/-- Witness for C9's overflow clause at bounds `(-(2^64), 0)`. -/
theorem C9_min_int_dtype_spec_witness :
    min_int_dtype (-(2 ^ 64)) 0 = .error .overflow :=
  C9_min_int_dtype_spec.2.2 (-(2 ^ 64)) 0 (by decide) (Or.inl (by decide))

/-! ## BufferedArray (core.py lines 91-161)

The zarr destination contributes its `shape`, `chunks` (one entry per
dimension) and element width `itemsize`.  The staging buffer holds
`min(chunks[0], shape[0])` rows of `shape[1:]` trailing elements; its contents
are never read by the writer logic, so it is carried as a flat element list.
Storage writes and progress increments are returned explicitly. -/

/-- A slice-assignment issued to the zarr store: either a 1-D row range, or a
row range restricted to a column slab. -/
inductive Write where
  | oneD (rowStart rowStop : Nat)
  | slab (rowStart rowStop colStart colStop : Nat)
  deriving DecidableEq, Repr

/-- Column ranges visited by the `while start < zarr_array_width` loop of
`sync_flush_2d_array`, iterated on explicit fuel:
`stop = min(start + samples_chunk_size, width)`, then `start = stop`. -/
def slabColsFuel : Nat → Nat → Nat → Nat → List (Nat × Nat)
  | 0, _, _, _ => []
  | fuel + 1, start, width, sc =>
    if start < width then
      (start, min (start + sc) width) ::
        slabColsFuel fuel (min (start + sc) width) width sc
    else []

/-- Column ranges of the 2-D flush loop.  When `sc > 0` (zarr guarantees a
positive chunk width; the Python loop would not terminate otherwise) each
iteration advances `start` by at least one, so `width - start` iterations of
fuel reproduce the loop exactly. -/
def slabCols (start width sc : Nat) : List (Nat × Nat) :=
  slabColsFuel (width - start) start width sc

/-- Embedding of `sync_flush_1d_array(np_buffer, zarr_array, offset)` with
`np_buffer = buff[:rows]`: one slice write, one progress increment of
`np_buffer.nbytes = rows * rowBytes`. -/
def sync_flush_1d_array (rows offset rowBytes : Nat) : List Write × List Nat :=
  ([Write.oneD offset (offset + rows)], [rows * rowBytes])

/-- Embedding of `sync_flush_2d_array(np_buffer, zarr_array, offset)`: one
slab write and one progress increment of `chunk_buffer.nbytes =
rows * (stop - start) * subBytes` per column slab of width `chunks[1]`. -/
def sync_flush_2d_array (rows offset width sc subBytes : Nat) :
    List Write × List Nat :=
  ((slabCols 0 width sc).map (fun p => Write.slab offset (offset + rows) p.1 p.2),
   (slabCols 0 width sc).map (fun p => rows * (p.2 - p.1) * subBytes))

/-- State of a `BufferedArray`: destination geometry plus the mutable
`array_offset` / `buffer_row` fields and the staging buffer contents. -/
structure BufferedArray where
  shape : List Nat
  chunks : List Nat
  itemsize : Nat
  buff : List Int
  array_offset : Nat
  buffer_row : Nat
  deriving DecidableEq, Repr

/-- Leading chunk size `array.chunks[0]`. -/
def BufferedArray.chunks0 (ba : BufferedArray) : Nat := ba.chunks.headD 0

/-- Leading dimension `array.shape[0]`. -/
def BufferedArray.shape0 (ba : BufferedArray) : Nat := ba.shape.headD 0

/-- `self.buff.shape[0]`, set by `__init__` to `min(chunks[0], shape[0])`. -/
def BufferedArray.variants_chunk_size (ba : BufferedArray) : Nat :=
  min ba.chunks0 ba.shape0

/-- Elements per logical row: the product of the trailing dimensions. -/
def BufferedArray.rowElems (ba : BufferedArray) : Nat := ba.shape.tail.prod

/-- Trailing chunk width `array.chunks[1]` (2-D flush path). -/
def BufferedArray.chunks1 (ba : BufferedArray) : Nat := ba.chunks.tail.headD 0

/-- Trailing dimension `array.shape[1]` (2-D flush path). -/
def BufferedArray.shape1 (ba : BufferedArray) : Nat := ba.shape.tail.headD 0

/-- Elements per `(row, column)` cell: product of dimensions `2...`. -/
def BufferedArray.subElems (ba : BufferedArray) : Nat := ba.shape.tail.tail.prod

/-- Embedding of `BufferedArray.__init__(array, offset)`: the
`assert offset % array.chunks[0] == 0` renders as `none` on a misaligned
offset; otherwise the staging buffer of `min(chunks[0], shape[0])` rows is
allocated and zero-filled. -/
def BufferedArray.init (shape chunks : List Nat) (itemsize offset : Nat) :
    Option BufferedArray :=
  if offset % chunks.headD 0 = 0 then
    some { shape := shape, chunks := chunks, itemsize := itemsize,
           buff := List.replicate (min (chunks.headD 0) (shape.headD 0) * shape.tail.prod) 0,
           array_offset := offset, buffer_row := 0 }
  else none

/-- Embedding of `BufferedArray.flush()`: a no-op when `buffer_row == 0`;
otherwise issues the 1-D or 2-D flush of `buff[:buffer_row]`, advances
`array_offset` by `variants_chunk_size`, and resets `buffer_row`. -/
def BufferedArray.flush (ba : BufferedArray) :
    BufferedArray × List Write × List Nat :=
  if ba.buffer_row ≠ 0 then
    let out :=
      if ba.chunks.length ≤ 1 then
        sync_flush_1d_array ba.buffer_row ba.array_offset
          (ba.rowElems * ba.itemsize)
      else
        sync_flush_2d_array ba.buffer_row ba.array_offset ba.shape1 ba.chunks1
          (ba.subElems * ba.itemsize)
    ({ ba with array_offset := ba.array_offset + ba.variants_chunk_size,
               buffer_row := 0 }, out)
  else (ba, [], [])

/-- Embedding of `BufferedArray.next_buffer_row()`: flush first when the
buffer is full, then hand out the current row index and increment
`buffer_row`.  Returns the new state, the row index, and the writes and
progress increments of any triggered flush. -/
def BufferedArray.next_buffer_row (ba : BufferedArray) :
    BufferedArray × Nat × List Write × List Nat :=
  let s := if ba.buffer_row = ba.variants_chunk_size then ba.flush
           else (ba, [], [])
  ({ s.1 with buffer_row := s.1.buffer_row + 1 }, s.1.buffer_row, s.2)

/-- Modelled from the spec: `close()` forces a final `flush()` if rows are
pending.  The source `BufferedArray` has no `close` method; its callers issue
the final flush themselves. -/
def BufferedArray.close (ba : BufferedArray) :
    BufferedArray × List Write × List Nat :=
  ba.flush

/-- One call of the writer API, for stating invariants over call sequences. -/
inductive WriterOp where
  | nextRow
  | flushOp
  | closeOp
  deriving DecidableEq, Repr

/-- State reached after one writer call (the returned row index, writes and
increments are irrelevant to the state invariants). -/
def BufferedArray.step (ba : BufferedArray) (op : WriterOp) : BufferedArray :=
  match op with
  | .nextRow => ba.next_buffer_row.1
  | .flushOp => ba.flush.1
  | .closeOp => ba.close.1

/-- State reached after a sequence of writer calls. -/
def BufferedArray.run (ba : BufferedArray) (ops : List WriterOp) : BufferedArray :=
  ops.foldl BufferedArray.step ba

/-! ## Progress State (core.py lines 177-193) -/

/-- Embedding of `update_progress(inc)`: one atomic locked increment of the
shared `_progress_counter`, a `multiprocessing.Value("Q", 0)` — an unsigned
64-bit ctypes value whose assignment wraps modulo `2 ^ 64` on overflow. -/
def update_progress (counter inc : Nat) : Nat := (counter + inc) % 2 ^ 64

/-- Counter value after a session that starts at `set_progress(0)` and applies
a sequence of atomic increments; `get_progress` reads the result. -/
def runProgress (incs : List Nat) : Nat := incs.foldl update_progress 0

/-! ### Basic facts about flush and next_buffer_row -/

theorem BufferedArray.flush_of_zero (ba : BufferedArray) (h : ba.buffer_row = 0) :
    ba.flush = (ba, [], []) := by
  unfold BufferedArray.flush
  rw [if_neg (fun hc => hc h)]

theorem BufferedArray.flush_fst (ba : BufferedArray) (h : ba.buffer_row ≠ 0) :
    ba.flush.1 = { ba with array_offset := ba.array_offset + ba.variants_chunk_size,
                           buffer_row := 0 } := by
  unfold BufferedArray.flush
  rw [if_pos h]

theorem BufferedArray.flush_buffer_row (ba : BufferedArray) :
    ba.flush.1.buffer_row = 0 := by
  by_cases h : ba.buffer_row = 0
  · rw [ba.flush_of_zero h]
    exact h
  · rw [ba.flush_fst h]

theorem BufferedArray.flush_shape (ba : BufferedArray) :
    ba.flush.1.shape = ba.shape := by
  by_cases h : ba.buffer_row = 0
  · rw [ba.flush_of_zero h]
  · rw [ba.flush_fst h]

theorem BufferedArray.flush_chunks (ba : BufferedArray) :
    ba.flush.1.chunks = ba.chunks := by
  by_cases h : ba.buffer_row = 0
  · rw [ba.flush_of_zero h]
  · rw [ba.flush_fst h]

theorem BufferedArray.step_shape (ba : BufferedArray) (op : WriterOp) :
    (ba.step op).shape = ba.shape := by
  cases op with
  | nextRow =>
    unfold BufferedArray.step BufferedArray.next_buffer_row
    by_cases h : ba.buffer_row = ba.variants_chunk_size <;>
      simp [h, BufferedArray.flush_shape]
  | flushOp => exact ba.flush_shape
  | closeOp => exact ba.flush_shape

theorem BufferedArray.step_chunks (ba : BufferedArray) (op : WriterOp) :
    (ba.step op).chunks = ba.chunks := by
  cases op with
  | nextRow =>
    unfold BufferedArray.step BufferedArray.next_buffer_row
    by_cases h : ba.buffer_row = ba.variants_chunk_size <;>
      simp [h, BufferedArray.flush_chunks]
  | flushOp => exact ba.flush_chunks
  | closeOp => exact ba.flush_chunks

/-- The state invariants of the Buffered Array Writer: `array_offset` is a
multiple of the leading chunk size, and at most one chunk of rows is staged. -/
def WriterInv (ba : BufferedArray) : Prop :=
  ba.chunks0 ∣ ba.array_offset ∧ ba.buffer_row ≤ ba.chunks0

theorem WriterInv_flush (ba : BufferedArray)
    (hpos : 0 < ba.chunks0) (hfit : ba.chunks0 ≤ ba.shape0)
    (hinv : WriterInv ba) : WriterInv ba.flush.1 := by
  obtain ⟨hdvd, hbr⟩ := hinv
  by_cases h : ba.buffer_row = 0
  · rw [ba.flush_of_zero h]
    exact ⟨hdvd, hbr⟩
  · rw [ba.flush_fst h]
    have hvcs : ba.variants_chunk_size = ba.chunks0 := Nat.min_eq_left hfit
    refine ⟨?_, ?_⟩
    · show ba.chunks0 ∣ ba.array_offset + ba.variants_chunk_size
      rw [hvcs]
      exact Nat.dvd_add hdvd dvd_rfl
    · show 0 ≤ ba.chunks0
      omega

theorem WriterInv_step (ba : BufferedArray) (op : WriterOp)
    (hpos : 0 < ba.chunks0) (hfit : ba.chunks0 ≤ ba.shape0)
    (hinv : WriterInv ba) : WriterInv (ba.step op) := by
  cases op with
  | flushOp => exact WriterInv_flush ba hpos hfit hinv
  | closeOp => exact WriterInv_flush ba hpos hfit hinv
  | nextRow =>
    have hvcs : ba.variants_chunk_size = ba.chunks0 := Nat.min_eq_left hfit
    unfold BufferedArray.step BufferedArray.next_buffer_row
    by_cases h : ba.buffer_row = ba.variants_chunk_size
    · have hf := WriterInv_flush ba hpos hfit hinv
      have hbr0 := ba.flush_buffer_row
      have hch := ba.flush_chunks
      simp only [h, if_pos]
      refine ⟨?_, ?_⟩
      · show ba.flush.1.chunks0 ∣ ba.flush.1.array_offset
        exact hf.1
      · show ba.flush.1.buffer_row + 1 ≤ ba.flush.1.chunks0
        have : ba.flush.1.chunks0 = ba.chunks0 := by
          unfold BufferedArray.chunks0
          rw [hch]
        omega
    · simp only [if_neg h]
      refine ⟨hinv.1, ?_⟩
      show ba.buffer_row + 1 ≤ ba.chunks0
      have hbr := hinv.2
      omega

theorem WriterInv_run (ba : BufferedArray) (ops : List WriterOp)
    (hpos : 0 < ba.chunks0) (hfit : ba.chunks0 ≤ ba.shape0)
    (hinv : WriterInv ba) : WriterInv (ba.run ops) := by
  induction ops generalizing ba with
  | nil => exact hinv
  | cons op ops ih =>
    have hsh := ba.step_shape op
    have hch := ba.step_chunks op
    have hpos' : 0 < (ba.step op).chunks0 := by
      unfold BufferedArray.chunks0
      rw [hch]
      exact hpos
    have hfit' : (ba.step op).chunks0 ≤ (ba.step op).shape0 := by
      unfold BufferedArray.chunks0 BufferedArray.shape0
      rw [hch, hsh]
      exact hfit
    exact ih (ba.step op) hpos' hfit' (WriterInv_step ba op hpos hfit hinv)

/-! ## Claim theorems: Buffered Array Writer -/

/-- Writer over a destination whose leading chunk size exceeds its row count
(`shape = (2,)`, `chunks = (4,)`), freshly opened at offset `0`. -/
def exampleWideChunkInit : BufferedArray :=
  { shape := [2], chunks := [4], itemsize := 1, buff := [0, 0],
    array_offset := 0, buffer_row := 0 }

/-- The same writer after one `next_buffer_row()` call: one staged row. -/
def exampleWideChunkArray : BufferedArray :=
  { shape := [2], chunks := [4], itemsize := 1, buff := [0, 0],
    array_offset := 0, buffer_row := 1 }

/-- Writer over `shape = (4,)`, `chunks = (2,)`, `itemsize = 3`, with two
staged rows. -/
def exampleTallArray : BufferedArray :=
  { shape := [4], chunks := [2], itemsize := 3, buff := [0, 0],
    array_offset := 0, buffer_row := 2 }

/-- C2 (amended): a flush with at least one staged row advances
`array_offset` by exactly `min(chunkSize, shape0)` (the staging buffer's row
count) — not by `buffer_row` — and resets `buffer_row` to zero; whenever
`chunkSize ≤ shape0` the advance is exactly the leading chunk size. -/
theorem C2_flush_advances_offset (ba : BufferedArray) (h : 0 < ba.buffer_row) :
    ba.flush.1.array_offset = ba.array_offset + min ba.chunks0 ba.shape0 ∧
    ba.flush.1.buffer_row = 0 ∧
    (ba.chunks0 ≤ ba.shape0 →
      ba.flush.1.array_offset = ba.array_offset + ba.chunks0) := by
  rw [ba.flush_fst (by omega)]
  refine ⟨rfl, rfl, fun hle => ?_⟩
  show ba.array_offset + ba.variants_chunk_size = ba.array_offset + ba.chunks0
  rw [BufferedArray.variants_chunk_size, Nat.min_eq_left hle]

/-- Witness for C2 on a writer with two staged rows over chunk size `2`. -/
theorem C2_flush_advances_offset_witness :
    exampleTallArray.flush.1.array_offset =
      exampleTallArray.array_offset +
        min exampleTallArray.chunks0 exampleTallArray.shape0 ∧
    exampleTallArray.flush.1.buffer_row = 0 ∧
    (exampleTallArray.chunks0 ≤ exampleTallArray.shape0 →
      exampleTallArray.flush.1.array_offset =
        exampleTallArray.array_offset + exampleTallArray.chunks0) :=
  C2_flush_advances_offset exampleTallArray (by decide)

/-- C2 counterexample: with `shape = (2,)` and `chunks = (4,)` (zarr allows a
chunk longer than the array), a flush of one staged row advances
`array_offset` by `2 = min(4, 2)`, not by the leading chunk size `4`.  The
state is reached from `__init__` at offset `0` plus one `next_buffer_row()`. -/
theorem C2_counterexample :
    BufferedArray.init [2] [4] 1 0 = some exampleWideChunkInit ∧
    exampleWideChunkInit.next_buffer_row.1 = exampleWideChunkArray ∧
    exampleWideChunkArray.chunks0 = 4 ∧
    0 < exampleWideChunkArray.buffer_row ∧
    exampleWideChunkArray.flush.1.array_offset = 2 ∧
    exampleWideChunkArray.flush.1.array_offset ≠
      exampleWideChunkArray.array_offset + exampleWideChunkArray.chunks0 := by
  decide

/-- C6 (amended): for a writer opened by `__init__` at a valid offset over a
destination whose leading chunk size is positive and no larger than its row
count (so the staging buffer has exactly `chunkSize` rows), every sequence of
`next_buffer_row` / `flush` / `close` calls preserves the invariants:
`array_offset` is a multiple of the leading chunk size and
`buffer_row ≤ chunkSize`. -/
theorem C6_writer_invariants (shape chunks : List Nat) (itemsize offset : Nat)
    (ba0 : BufferedArray) (ops : List WriterOp)
    (hinit : BufferedArray.init shape chunks itemsize offset = some ba0)
    (hpos : 0 < chunks.headD 0) (hfit : chunks.headD 0 ≤ shape.headD 0) :
    ba0.buff.length = chunks.headD 0 * shape.tail.prod ∧
    (ba0.run ops).chunks0 ∣ (ba0.run ops).array_offset ∧
    (ba0.run ops).buffer_row ≤ (ba0.run ops).chunks0 := by
  by_cases hmod : offset % chunks.headD 0 = 0
  · rw [BufferedArray.init, if_pos hmod, Option.some_inj] at hinit
    subst hinit
    refine ⟨?_, ?_⟩
    · rw [List.length_replicate, Nat.min_eq_left hfit]
    · exact WriterInv_run _ ops hpos hfit
        ⟨Nat.dvd_of_mod_eq_zero hmod, Nat.zero_le _⟩
  · rw [BufferedArray.init, if_neg hmod] at hinit
    cases hinit

/-- Writer over `shape = (4,)`, `chunks = (2,)` as produced by `__init__` at
the valid offset `2`. -/
def exampleTallInit : BufferedArray :=
  { shape := [4], chunks := [2], itemsize := 1, buff := [0, 0],
    array_offset := 2, buffer_row := 0 }

/-- Witness for C6: writer over `shape = (4,)`, `chunks = (2,)` opened at
offset `2`, run through a nextRow/flush/nextRow/nextRow/close sequence. -/
theorem C6_writer_invariants_witness :
    exampleTallInit.buff.length = ([2] : List Nat).headD 0 * ([4] : List Nat).tail.prod ∧
    (exampleTallInit.run [.nextRow, .flushOp, .nextRow, .nextRow, .closeOp]).chunks0 ∣
      (exampleTallInit.run [.nextRow, .flushOp, .nextRow, .nextRow, .closeOp]).array_offset ∧
    (exampleTallInit.run [.nextRow, .flushOp, .nextRow, .nextRow, .closeOp]).buffer_row ≤
      (exampleTallInit.run [.nextRow, .flushOp, .nextRow, .nextRow, .closeOp]).chunks0 :=
  C6_writer_invariants [4] [2] 1 2 exampleTallInit
    [.nextRow, .flushOp, .nextRow, .nextRow, .closeOp]
    (by decide) (by decide) (by decide)

/-- C6 counterexample: over `shape = (2,)`, `chunks = (4,)` (a valid zarr
geometry) the writer opens fine at offset `0`, but three `next_buffer_row()`
calls leave `array_offset = 2`, which is not a multiple of the leading chunk
size `4` — and the staging buffer has `2` rows, not `chunkSize` rows. -/
theorem C6_counterexample :
    BufferedArray.init [2] [4] 1 0 = some exampleWideChunkInit ∧
    exampleWideChunkInit.chunks0 = 4 ∧
    (exampleWideChunkInit.run [.nextRow, .nextRow, .nextRow]).array_offset = 2 ∧
    ¬ (exampleWideChunkInit.run
        [.nextRow, .nextRow, .nextRow]).chunks0 ∣
      (exampleWideChunkInit.run [.nextRow, .nextRow, .nextRow]).array_offset := by
  decide

/-- C7: `flush()` is a no-op on an empty buffer — no state change, no storage
write, no progress increment — and a second consecutive `flush()` (no
intervening `next_buffer_row`) is always such a no-op, so two consecutive
flushes perform exactly the writes of the first. -/
theorem C7_flush_idempotent (ba : BufferedArray) :
    (ba.buffer_row = 0 → ba.flush = (ba, [], [])) ∧
    ba.flush.1.flush = (ba.flush.1, [], []) :=
  ⟨fun h => ba.flush_of_zero h,
   BufferedArray.flush_of_zero _ ba.flush_buffer_row⟩

/-- Witness for C7 on a freshly opened writer (empty buffer). -/
theorem C7_flush_idempotent_witness :
    exampleWideChunkInit.flush = (exampleWideChunkInit, [], []) ∧
    exampleWideChunkInit.flush.1.flush = (exampleWideChunkInit.flush.1, [], []) :=
  ⟨(C7_flush_idempotent exampleWideChunkInit).1 rfl,
   (C7_flush_idempotent exampleWideChunkInit).2⟩

/-- C8 (amended): `__init__` fails (assertion) exactly when the offset is not
a multiple of the leading chunk size; on a multiple it succeeds with a
zero-filled staging buffer of `min(chunkSize, shape0)` rows (`chunkSize` rows
whenever `chunkSize ≤ shape0`). -/
theorem C8_init_spec (shape chunks : List Nat) (itemsize offset : Nat)
    (hpos : 0 < chunks.headD 0) :
    (¬ chunks.headD 0 ∣ offset →
      BufferedArray.init shape chunks itemsize offset = none) ∧
    (chunks.headD 0 ∣ offset →
      ∃ ba, BufferedArray.init shape chunks itemsize offset = some ba ∧
        ba.array_offset = offset ∧ ba.buffer_row = 0 ∧
        ba.buff.length = min (chunks.headD 0) (shape.headD 0) * shape.tail.prod ∧
        ∀ v ∈ ba.buff, v = 0) := by
  constructor
  · intro hnd
    rw [BufferedArray.init, if_neg (fun hc => hnd (Nat.dvd_of_mod_eq_zero hc))]
  · intro hd
    have hmod : offset % chunks.headD 0 = 0 := by
      obtain ⟨c, rfl⟩ := hd
      exact Nat.mul_mod_right _ _
    refine ⟨{ shape := shape, chunks := chunks, itemsize := itemsize,
              buff := List.replicate
                (min (chunks.headD 0) (shape.headD 0) * shape.tail.prod) 0,
              array_offset := _, buffer_row := 0 },
      ?_, rfl, rfl, ?_, ?_⟩
    · rw [BufferedArray.init, if_pos hmod]
    · exact List.length_replicate _ _
    · intro v hv
      exact List.eq_of_mem_replicate hv

/-- Witness for C8 at the misaligned offset `6` over chunk size `4`. -/
theorem C8_init_spec_witness :
    BufferedArray.init [2] [4] 1 6 = none :=
  (C8_init_spec [2] [4] 1 6 (by decide)).1 (by decide)

/-- C8 counterexample: over `shape = (2,)`, `chunks = (4,)` the open succeeds
at offset `0` but the staging buffer holds `2` rows (`min(4, 2)`), not the
chunk-sized `4` rows the claim promises. -/
theorem C8_counterexample :
    BufferedArray.init [2] [4] 1 0 = some exampleWideChunkInit ∧
    exampleWideChunkInit.buff.length = 2 ∧
    exampleWideChunkInit.chunks0 * exampleWideChunkInit.rowElems = 4 ∧
    exampleWideChunkInit.buff.length ≠
      exampleWideChunkInit.chunks0 * exampleWideChunkInit.rowElems := by
  decide

/-! ### Flush byte accounting -/

theorem slabColsFuel_weighted_sum (a b sc : Nat) (hsc : 0 < sc) :
    ∀ fuel start width, width ≤ start + fuel →
      ((slabColsFuel fuel start width sc).map
          (fun p => a * (p.2 - p.1) * b)).sum = a * (width - start) * b := by
  intro fuel
  induction fuel with
  | zero =>
    intro start width h
    have hws : width - start = 0 := by omega
    simp [slabColsFuel, hws]
  | succ fuel ih =>
    intro start width h
    by_cases hlt : start < width
    · rw [slabColsFuel, if_pos hlt]
      simp only [List.map_cons, List.sum_cons]
      have h1 : start < min (start + sc) width := by omega
      have h2 : min (start + sc) width ≤ width := Nat.min_le_right _ _
      rw [ih (min (start + sc) width) width (by omega)]
      have hxy : (min (start + sc) width - start) + (width - min (start + sc) width)
          = width - start := by omega
      calc a * (min (start + sc) width - start) * b
            + a * (width - min (start + sc) width) * b
          = a * ((min (start + sc) width - start)
              + (width - min (start + sc) width)) * b := by ring
        _ = a * (width - start) * b := by rw [hxy]
    · rw [slabColsFuel, if_neg hlt]
      have hws : width - start = 0 := by omega
      simp [hws]

theorem slabCols_weighted_sum (a b sc start width : Nat) (hsc : 0 < sc) :
    ((slabCols start width sc).map (fun p => a * (p.2 - p.1) * b)).sum
      = a * (width - start) * b :=
  slabColsFuel_weighted_sum a b sc hsc (width - start) start width (by omega)

theorem BufferedArray.flush_snd (ba : BufferedArray) (h : ba.buffer_row ≠ 0) :
    ba.flush.2 =
      if ba.chunks.length ≤ 1 then
        sync_flush_1d_array ba.buffer_row ba.array_offset
          (ba.rowElems * ba.itemsize)
      else
        sync_flush_2d_array ba.buffer_row ba.array_offset ba.shape1 ba.chunks1
          (ba.subElems * ba.itemsize) := by
  unfold BufferedArray.flush
  rw [if_pos h]

/-- The progress increments of one flush total `buffer_row` rows times the
row byte width, on both the 1-D and the 2-D path. -/
theorem flush_incs_sum (ba : BufferedArray)
    (hgeom : ¬ ba.chunks.length ≤ 1 → 0 < ba.chunks1 ∧ 2 ≤ ba.shape.length) :
    ba.flush.2.2.sum = ba.buffer_row * (ba.shape.tail.prod * ba.itemsize) := by
  by_cases h0 : ba.buffer_row = 0
  · rw [ba.flush_of_zero h0]
    simp [h0]
  · rw [ba.flush_snd h0]
    by_cases h1 : ba.chunks.length ≤ 1
    · rw [if_pos h1]
      unfold sync_flush_1d_array
      simp [BufferedArray.rowElems, Nat.mul_assoc]
    · rw [if_neg h1]
      obtain ⟨hc1, hlen⟩ := hgeom h1
      unfold sync_flush_2d_array
      rcases hsh : ba.shape with _ | ⟨s0, stail⟩
      · rw [hsh] at hlen
        simp at hlen
      rcases stail with _ | ⟨s1, srest⟩
      · rw [hsh] at hlen
        simp at hlen
      rw [slabCols_weighted_sum _ _ _ _ _ hc1]
      simp only [BufferedArray.shape1, BufferedArray.subElems, hsh,
        List.tail_cons, List.headD_cons, List.prod_cons, Nat.sub_zero]
      ring

theorem runProgress_foldl (incs : List Nat) :
    ∀ c, incs.foldl update_progress (c % 2 ^ 64) = (c + incs.sum) % 2 ^ 64 := by
  induction incs with
  | nil =>
    intro c
    simp
  | cons x xs ih =>
    intro c
    simp only [List.foldl_cons, List.sum_cons]
    have h1 : update_progress (c % 2 ^ 64) x = (c + x) % 2 ^ 64 := by
      unfold update_progress
      rw [Nat.mod_add_mod]
    rw [h1, ih (c + x), Nat.add_assoc]

theorem runProgress_eq_sum_mod (incs : List Nat) :
    runProgress incs = incs.sum % 2 ^ 64 := by
  unfold runProgress
  have h := runProgress_foldl incs 0
  simpa using h

/-- 2-D writer over `shape = (4, 5)`, `chunks = (2, 2)` with two staged rows. -/
def example2DArray : BufferedArray :=
  { shape := [4, 5], chunks := [2, 2], itemsize := 1,
    buff := List.replicate 10 0, array_offset := 0, buffer_row := 2 }

/-- C4 (amended): starting from `set_progress(0)`, applying the locked atomic
progress increments of all flushes of all workers — in any interleaving, i.e.
any permutation of the increments, so in particular for any worker count —
leaves the shared counter equal to the total bytes flushed modulo `2 ^ 64`
(`_progress_counter` is an unsigned 64-bit value), hence equal to the exact
total whenever that total is below `2 ^ 64`: per flush, `buffer_row` times
the row byte width (the 2-D path reports this same total slab by slab). -/
theorem C4_progress_total (workers : List (List BufferedArray)) (order : List Nat)
    (hgeom : ∀ ba ∈ workers.flatten, ¬ ba.chunks.length ≤ 1 →
      0 < ba.chunks1 ∧ 2 ≤ ba.shape.length)
    (hperm : order.Perm ((workers.flatten.map (fun ba => ba.flush.2.2)).flatten)) :
    runProgress order =
      (workers.flatten.map
        (fun ba => ba.buffer_row * (ba.shape.tail.prod * ba.itemsize))).sum % 2 ^ 64 ∧
    ((workers.flatten.map
        (fun ba => ba.buffer_row * (ba.shape.tail.prod * ba.itemsize))).sum < 2 ^ 64 →
      runProgress order =
        (workers.flatten.map
          (fun ba => ba.buffer_row * (ba.shape.tail.prod * ba.itemsize))).sum) := by
  have key : ∀ l : List BufferedArray,
      (∀ ba ∈ l, ¬ ba.chunks.length ≤ 1 → 0 < ba.chunks1 ∧ 2 ≤ ba.shape.length) →
      ((l.map (fun ba => ba.flush.2.2)).flatten).sum =
        (l.map (fun ba => ba.buffer_row * (ba.shape.tail.prod * ba.itemsize))).sum := by
    intro l
    induction l with
    | nil =>
      intro _
      simp
    | cons ba l ih =>
      intro hl
      simp only [List.map_cons, List.flatten_cons, List.sum_append, List.sum_cons]
      rw [flush_incs_sum ba (hl ba (List.mem_cons_self ba l)),
        ih (fun b hb => hl b (List.mem_cons_of_mem _ hb))]
  have hsum : order.sum =
      (workers.flatten.map
        (fun ba => ba.buffer_row * (ba.shape.tail.prod * ba.itemsize))).sum := by
    rw [hperm.sum_eq]
    exact key workers.flatten hgeom
  refine ⟨?_, ?_⟩
  · rw [runProgress_eq_sum_mod, hsum]
  · intro hlt
    rw [runProgress_eq_sum_mod, hsum, Nat.mod_eq_of_lt hlt]

/-- Witness for C4: a 1-D worker flushing 6 bytes and a 2-D worker flushing
10 bytes in three slabs, interleaved as `[4, 6, 4, 2]`, total `16 < 2 ^ 64`. -/
theorem C4_progress_total_witness :
    runProgress [4, 6, 4, 2] =
      (([[exampleTallArray], [example2DArray]] : List (List BufferedArray)).flatten.map
        (fun ba => ba.buffer_row * (ba.shape.tail.prod * ba.itemsize))).sum :=
  (C4_progress_total [[exampleTallArray], [example2DArray]] [4, 6, 4, 2]
    (by decide) (by decide)).2 (by decide)

/-- A 1-D writer whose single staged row is `2 ^ 64` bytes wide, so its one
flush increment wraps the unsigned 64-bit progress counter. -/
def overflowArray : BufferedArray :=
  { shape := [1], chunks := [1], itemsize := 2 ^ 64, buff := [0],
    array_offset := 0, buffer_row := 1 }

/-- C4 counterexample: a session with one worker and one flush of `2 ^ 64`
bytes.  `_progress_counter` is `multiprocessing.Value("Q", 0)`, an unsigned
64-bit value, so the counter wraps to `0` and does not equal the session's
byte total as the claim states. -/
theorem C4_counterexample :
    overflowArray.flush.2.2 = [2 ^ 64] ∧
    (([[overflowArray]] : List (List BufferedArray)).flatten.map
      (fun ba => ba.buffer_row * (ba.shape.tail.prod * ba.itemsize))).sum = 2 ^ 64 ∧
    runProgress [2 ^ 64] = 0 ∧
    runProgress [2 ^ 64] ≠
      (([[overflowArray]] : List (List BufferedArray)).flatten.map
        (fun ba => ba.buffer_row * (ba.shape.tail.prod * ba.itemsize))).sum := by
  refine ⟨rfl, by decide, by decide, by decide⟩

/-! ## Work Manager futures (core.py lines 66-88 and 243-256)

A future handle is modelled by its observable state: whether it has completed,
the exception it failed with (exceptions are identified by a numeric id;
`future.exception()` is `none` on success), and whether `cancel()` has been
requested on it.  `cf.wait(futures, timeout, FIRST_COMPLETED)` blocks until at
least one handle completes or the timeout elapses and then returns the
completed/pending split of the set; the embedding takes the state at that
moment as input, with `completed` marking the `done` part of the split. -/

structure FutureState where
  completed : Bool
  exn : Option Nat
  cancelled : Bool
  deriving DecidableEq, Repr

/-- Embedding of `cancel_futures`: requests cancellation of every handle. -/
def cancel_futures (futures : List FutureState) : List FutureState :=
  futures.map (fun f => { f with cancelled := true })

/-- Embedding of `ParallelWorkManager.wait_for_completed(timeout)` acting on
the outstanding set.  The `for future in done` loop re-raises the first
exception it finds among the completed handles; the raise skips the
`self.futures = not_done` assignment, so on failure the outstanding set is
returned unchanged (and no handle is cancelled — there is no `cancel_futures`
call here, unlike `wait_on_futures`).  On success the completed handles are
removed from the outstanding set and returned. -/
def wait_for_completed (futures : List FutureState) :
    Except (Nat × List FutureState) (List FutureState × List FutureState) :=
  match (futures.filter (·.completed)).findSome? (·.exn) with
  | some e => .error (e, futures)
  | none => .ok (futures.filter (·.completed),
                 futures.filter (fun f => !f.completed))

/-- Embedding of `wait_on_futures` (run on normal scope exit): iterates the
handles as they complete; on the first failure it cancels every handle and
re-raises.  All handles are assumed to complete eventually; `exn` is the
exception each ends with. -/
def wait_on_futures (futures : List FutureState) :
    Option Nat × List FutureState :=
  match futures.findSome? (·.exn) with
  | some e => (some e, cancel_futures futures)
  | none => (none, futures)

/-- Result handle of an executor submission, already holding its outcome. -/
structure CompletedFuture (α : Type) where
  result : Except Nat α
  deriving Repr

/-- Embedding of `SynchronousExecutor.submit`:
`future.set_result(fn(*args, **kwargs))` evaluates `fn` before the fresh
future holds anything, so an exception from `fn` escapes `submit` itself and
no future is produced. -/
def synchronousSubmit {α : Type} (fn : Unit → Except Nat α) :
    Except Nat (CompletedFuture α) :=
  match fn () with
  | .error e => .error e
  | .ok v => .ok { result := .ok v }

/-- Embedding of `ParallelWorkManager.submit` over the synchronous executor:
the executor's future is added to `self.futures` and returned; when the
executor raises, neither happens. -/
def managerSubmitSync {α : Type} (futures : List (CompletedFuture α))
    (fn : Unit → Except Nat α) :
    Except Nat (List (CompletedFuture α) × CompletedFuture α) :=
  match synchronousSubmit fn with
  | .error e => .error e
  | .ok fut => .ok (futures ++ [fut], fut)

/-- Modelled from the spec: the multi-process executor
(`ProcessPoolExecutor`, an external collaborator) runs the callable in a
worker process and captures any exception inside the returned handle instead
of raising at `submit` time. -/
def processPoolSubmit {α : Type} (fn : Unit → Except Nat α) :
    CompletedFuture α :=
  { result := fn () }

/-! ## Claim theorems: Work Manager -/

/-- C3 (amended): given the completed/pending split produced by
`cf.wait(..., FIRST_COMPLETED)`, `wait_for_completed`: (1) if any completed
handle failed, re-raises that failure with the outstanding set unchanged —
completed handles are not removed and no handle is cancelled; (2) if no
completed handle failed, removes exactly the completed handles from the
outstanding set and returns them (the two parts repartition the set); (3) on
a pure timeout with no completions it returns the empty set without losing
outstanding handles.  Cancellation on failure happens only at session exit,
in `wait_on_futures`, which cancels every handle before re-raising. -/
theorem C3_wait_for_completed_spec (futures : List FutureState) :
    (∀ e, (futures.filter (·.completed)).findSome? (·.exn) = some e →
      wait_for_completed futures = .error (e, futures)) ∧
    ((futures.filter (·.completed)).findSome? (·.exn) = none →
      wait_for_completed futures =
        .ok (futures.filter (·.completed),
             futures.filter (fun f => !f.completed)) ∧
      (futures.filter (·.completed) ++
        futures.filter (fun f => !f.completed)).Perm futures) ∧
    ((∀ f ∈ futures, f.completed = false) →
      wait_for_completed futures = .ok ([], futures)) ∧
    (∀ e, futures.findSome? (·.exn) = some e →
      wait_on_futures futures = (some e, cancel_futures futures) ∧
      ∀ f ∈ (wait_on_futures futures).2, f.cancelled = true) := by
  refine ⟨?_, ?_, ?_, ?_⟩
  · intro e he
    simp [wait_for_completed, he]
  · intro hn
    exact ⟨by simp [wait_for_completed, hn],
      List.filter_append_perm _ futures⟩
  · intro hall
    have h1 : futures.filter (·.completed) = [] := by
      rw [List.filter_eq_nil_iff]
      intro f hf
      simp [hall f hf]
    have h2 : futures.filter (fun f => !f.completed) = futures := by
      rw [List.filter_eq_self]
      intro f hf
      simp [hall f hf]
    simp [wait_for_completed, h1, h2]
  · intro e he
    refine ⟨by simp [wait_on_futures, he], ?_⟩
    intro f hf
    simp only [wait_on_futures, he] at hf
    obtain ⟨g, _, rfl⟩ := List.mem_map.mp hf
    rfl

/-- Witness for C3: a pure timeout (one pending handle, nothing completed)
returns the empty completed set and keeps the outstanding handle. -/
theorem C3_wait_for_completed_spec_witness :
    wait_for_completed [{ completed := false, exn := none, cancelled := false }] =
      .ok ([], [{ completed := false, exn := none, cancelled := false }]) :=
  (C3_wait_for_completed_spec
    [{ completed := false, exn := none, cancelled := false }]).2.2.1 (by decide)

/-- C3 counterexample: one completed-and-failed handle alongside one pending
handle.  The claim says the pending handle is cancelled and the completed one
removed before the failure is re-raised; the code re-raises with the
outstanding set unchanged — the pending handle is still present and not
cancelled — because the raise skips both `cancel_futures` (never called here)
and the `self.futures = not_done` assignment. -/
theorem C3_counterexample :
    wait_for_completed
        [{ completed := true, exn := some 7, cancelled := false },
         { completed := false, exn := none, cancelled := false }] =
      .error (7,
        [{ completed := true, exn := some 7, cancelled := false },
         { completed := false, exn := none, cancelled := false }]) := by
  rfl

/-- C10: in the same-thread fallback executor, a raising callable propagates
its exception out of `submit` directly — no handle is returned and nothing is
added to the manager's outstanding set — whereas the multi-process executor
would capture the exception inside an already-completed handle. -/
theorem C10_sync_submit_propagates {α : Type} (fn : Unit → Except Nat α)
    (e : Nat) (h : fn () = .error e) :
    synchronousSubmit fn = .error e ∧
    (∀ futures, managerSubmitSync futures fn = .error e) ∧
    processPoolSubmit fn = { result := .error e } := by
  refine ⟨?_, ?_, ?_⟩ <;>
    simp [synchronousSubmit, managerSubmitSync, processPoolSubmit, h]

/-- A submitted unit of work that raises exception `3`. -/
def failingTask : Unit → Except Nat Nat := fun _ => .error 3

/-- Witness for C10 on `failingTask` with an empty outstanding set. -/
theorem C10_sync_submit_propagates_witness :
    synchronousSubmit failingTask = .error 3 ∧
    managerSubmitSync ([] : List (CompletedFuture Nat)) failingTask = .error 3 ∧
    processPoolSubmit failingTask = { result := .error 3 } :=
  ⟨(C10_sync_submit_propagates failingTask 3 rfl).1,
   (C10_sync_submit_propagates failingTask 3 rfl).2.1 [],
   (C10_sync_submit_propagates failingTask 3 rfl).2.2⟩

end Bio2zarr
